import Mathlib

/-!
# TourPlan Recommendation System — verification of the specification

Shallow embedding of the scoring and itinerary-assembly core of the
TourPlan recommender (files `TourPlan_Recommender/Models.py`,
`TourPlan_Recommender/itinerary.py`, `TourPlan_Recommender/data_preprocessor.py`),
followed by theorems settling the frozen claims about it.

Modelling conventions:
* Python floats are idealised as exact rationals (`ℚ`); the IEEE special
  values needed by `normalize_score` are captured by the `PyFloat` type
  (finite / +inf / -inf / nan).
* Python dictionaries with optional keys become structures with `Option`
  fields; `dict.get(k, d)` becomes `Option.getD`.
* `list.sort(key=..., reverse=True)` (Timsort) is a *stable* sort; any two
  stable sorts by the same key coincide, so it is embedded as a stable
  insertion sort (`sortDescBy` below, inserting each element after every
  already-placed element whose key is ≥ its own).
* Exceptions become `Option`: `pyDiv` returns `none` exactly where Python
  raises `ZeroDivisionError`, and the `try/except` of `normalize_score`
  turns that `none` into the `0.0` of its `except` branch.
-/

namespace TourPlan

/-! ## Python float model -/

/-- A Python `float`: a finite value (idealised as an exact rational),
`inf`, `-inf`, or `nan`. -/
inductive PyFloat where
  | finite (q : ℚ)
  | inf
  | neginf
  | nan
deriving DecidableEq, Repr

namespace PyFloat

/-- `math.isfinite`. -/
def isfinite : PyFloat → Bool
  | finite _ => true
  | _ => false

/-- IEEE-754 equality test (`==` on Python floats): `nan` is not equal to
anything, the infinities are equal to themselves, finite values compare
numerically. -/
def pyEq : PyFloat → PyFloat → Bool
  | finite a, finite b => a == b
  | inf, inf => true
  | neginf, neginf => true
  | _, _ => false

/-- IEEE-754 subtraction (finite arithmetic idealised as exact). -/
def pySub : PyFloat → PyFloat → PyFloat
  | nan, _ => nan
  | _, nan => nan
  | finite a, finite b => finite (a - b)
  | finite _, inf => neginf
  | finite _, neginf => inf
  | inf, finite _ => inf
  | inf, inf => nan
  | inf, neginf => inf
  | neginf, finite _ => neginf
  | neginf, inf => neginf
  | neginf, neginf => nan

/-- Python float division.  `none` models the `ZeroDivisionError` Python
raises when the divisor is `0.0`; all other cases follow IEEE-754
(finite arithmetic idealised as exact). -/
def pyDiv : PyFloat → PyFloat → Option PyFloat
  | _, finite 0 => none
  | nan, _ => some nan
  | _, nan => some nan
  | finite a, finite b => some (finite (a / b))
  | finite _, inf => some (finite 0)
  | finite _, neginf => some (finite 0)
  | inf, finite b => some (if 0 < b then inf else neginf)
  | neginf, finite b => some (if 0 < b then neginf else inf)
  | inf, inf => some nan
  | inf, neginf => some nan
  | neginf, inf => some nan
  | neginf, neginf => some nan

end PyFloat

/-! ## `Models.py` helper functions -/

open PyFloat in
/-- `Models.normalize_score` (Models.py lines 22–31): normalize a score with
guardrails.  The `try/except Exception: return 0.0` wrapper is materialised
by mapping the `none` of `pyDiv` (Python's `ZeroDivisionError`) to `0.0`;
no other statement of the body can raise on numeric input. -/
def normalize_score (value min_val max_val : PyFloat) : PyFloat :=
  if pyEq max_val min_val then finite (1/2)      -- neutral if no spread
  else if !value.isfinite then finite 0
  else
    match pyDiv (pySub value min_val) (pySub max_val min_val) with
    | some r => r
    | none => finite 0                            -- except branch

/-- Restriction of `normalize_score` to finite floats, the domain on which
`score_items` uses it (raw signals come from the catalog as finite reals). -/
def normQ (value min_val max_val : ℚ) : ℚ :=
  if max_val == min_val then 1/2
  else (value - min_val) / (max_val - min_val)

/-! ## Rounding and formatting

Python's `round(x, 3)` and `"%.2f"` round half to even; on the rational
idealisation of floats this is decimal round-half-even. -/

/-- Round half to even to the nearest integer. -/
def roundHalfEven (x : ℚ) : ℤ :=
  let n := ⌊x⌋
  if x - n < 1/2 then n
  else if 1/2 < x - n then n + 1
  else if n % 2 = 0 then n else n + 1

/-- Python `round(x, 3)`. -/
def round3 (x : ℚ) : ℚ := (roundHalfEven (x * 1000) : ℚ) / 1000

/-- Python `f"{x:.2f}"`. -/
def fmt2 (q : ℚ) : String :=
  let sign := if q < 0 then "-" else ""
  let m := roundHalfEven (|q| * 100)
  let i := m / 100
  let f := m % 100
  sign ++ toString i ++ "." ++ (if f < 10 then "0" else "") ++ toString f

/-! ## Stable sorting

Python's `list.sort` / `sorted` (Timsort) is stable; a stable sort by a key
is unique as a function, so every `sort(key=...)` of the source is embedded
as the stable insertion sort below.  `keep b a = true` means an
already-placed `b` stays in front of the incoming `a`; for
`sorted(key=k, reverse=True)` take `keep b a := k a ≤ k b`, for ascending
`sorted(key=k)` take `keep b a := k b ≤ k a`. -/

/-- Insert `a` after the longest prefix of elements `b` with `keep b a`. -/
def insertStableBy (keep : α → α → Bool) (a : α) : List α → List α
  | [] => [a]
  | b :: l => if keep b a then b :: insertStableBy keep a l else a :: b :: l

/-- Stable sort: fold the input left to right into a sorted accumulator. -/
def sortStableBy (keep : α → α → Bool) (l : List α) : List α :=
  l.foldl (fun acc a => insertStableBy keep a acc) []

/-! ## `Models.py` scoring-engine data model -/

/-- A candidate dictionary as consumed by `score_items`: every key the
function reads, optional because Python `dict.get` tolerates absence.
Raw signal values are finite catalog floats, idealised as rationals. -/
structure Cand where
  poi_id : Option Int := none
  city : Option String := none
  country : Option String := none
  type : Option String := none
  semantic : Option ℚ := none
  distance_km : Option ℚ := none
deriving DecidableEq, Repr

/-- The `user_ctx` dictionary: `score_items` only reads
`user_ctx.get("interests", [])`. -/
structure UserCtx where
  interests : Option (List String) := none
deriving DecidableEq, Repr

/-- The `weights` dictionary: each key optional, read with
`weights.get(name, default)`. -/
structure Weights where
  semantic : Option ℚ := none
  distance : Option ℚ := none
  category : Option ℚ := none
  diversity : Option ℚ := none
deriving DecidableEq, Repr

/-- An element of the `reranked` list produced by `score_items`. -/
structure ScoredItem where
  poi_id : Option Int
  city : Option String
  country : Option String
  type : Option String
  semantic : ℚ
  distance : ℚ
  category_score : ℚ
  diversity_score : ℚ
  final_score : ℚ
  explanation : String
deriving DecidableEq, Repr

/-- Python `str.lower()` (ASCII), on the character-list representation
(`String.toLower` itself does not reduce in the kernel). -/
def pyLower (s : String) : String := String.mk (s.toList.map Char.toLower)

/-- `Models.category_match` (Models.py lines 34–38).  Python's falsy test
`not poi_type` holds for both `None` and `""`. -/
def category_match (poi_type : Option String) (user_interests : List String) : ℚ :=
  if poi_type.getD "" = "" ∨ user_interests = [] then 0
  else if user_interests.any (fun x => pyLower x == pyLower (poi_type.getD "")) then 1 else 0

/-- `Models.diversity_penalty` (Models.py lines 41–46): −0.2 per
already-selected entry of the same (lower-cased) type; `0.0` outright when
`current_cat` is falsy (`None` or `""`). -/
def diversity_penalty (selected : List (Option String)) (current_cat : Option String) : ℚ :=
  if current_cat.getD "" = "" then 0
  else
    let count_same : ℚ :=
      (selected.countP (fun c => pyLower (c.getD "") == pyLower (current_cat.getD "")) : ℕ)
    (-(1/5)) * count_same

/-- The `semantic_norm` local of the `score_items` loop:
`normalize_score(c.get("semantic", 0.0), sem_min, sem_max) if sem_vals else 0.5`. -/
def semNormOf (hasSem : Bool) (sem_min sem_max : ℚ) (c : Cand) : ℚ :=
  if hasSem then normQ (c.semantic.getD 0) sem_min sem_max else 1/2

/-- The `distance_norm` local of the `score_items` loop: `0.5` when the
candidate has no `distance_km` key or no candidate has one, else the
inverted normalized distance (nearer is better). -/
def distNormOf (hasDist : Bool) (dist_min dist_max : ℚ) (c : Cand) : ℚ :=
  match c.distance_km with
  | none => 1/2
  | some d => if hasDist then 1 - normQ d dist_min dist_max else 1/2

/-- The `final_score` local of the `score_items` loop before rounding:
the weighted sum with defaults 0.5 / 0.3 / 0.15 / 0.05. -/
def exactFinalOne (w : Weights) (sn dn cs ds : ℚ) : ℚ :=
  w.semantic.getD (1/2) * sn + w.distance.getD (3/10) * dn +
    w.category.getD (3/20) * cs + w.diversity.getD (1/20) * ds

/-- One iteration of the `score_items` loop (Models.py lines 128–162):
builds the output `item` dictionary for candidate `c` given the types of
the already-scored candidates (`selected_for_div`). -/
def scoreOne (hasSem : Bool) (sem_min sem_max : ℚ) (hasDist : Bool)
    (dist_min dist_max : ℚ) (interests : List String) (w : Weights)
    (selected_for_div : List (Option String)) (c : Cand) : ScoredItem :=
  let semantic_norm := semNormOf hasSem sem_min sem_max c
  let distance_norm := distNormOf hasDist dist_min dist_max c
  let category_score := category_match c.type interests
  let diversity_score := diversity_penalty selected_for_div c.type
  { poi_id := c.poi_id
    city := c.city
    country := c.country
    type := c.type
    semantic := round3 semantic_norm
    distance := round3 distance_norm
    category_score := round3 category_score
    diversity_score := round3 diversity_score
    final_score := round3 (exactFinalOne w semantic_norm distance_norm
      category_score diversity_score)
    explanation := "sem:" ++ fmt2 semantic_norm ++ ", dist:" ++ fmt2 distance_norm
      ++ ", cat:" ++ fmt2 category_score ++ ", div:" ++ fmt2 diversity_score }

/-- The `for c in candidates` loop of `score_items`, threading the
`selected_for_div` list (to which every processed candidate's type is
appended). -/
def scoreLoop (hasSem : Bool) (sem_min sem_max : ℚ) (hasDist : Bool)
    (dist_min dist_max : ℚ) (interests : List String) (w : Weights) :
    List Cand → List (Option String) → List ScoredItem
  | [], _ => []
  | c :: rest, selected_for_div =>
      scoreOne hasSem sem_min sem_max hasDist dist_min dist_max interests w
          selected_for_div c ::
        scoreLoop hasSem sem_min sem_max hasDist dist_min dist_max interests w
          rest (selected_for_div ++ [c.type])

/-- Range preparation of Models.py lines 119–123:
`(min(vals), max(vals)) if vals else (0.0, 1.0)`. -/
def rangeOf (vals : List ℚ) : ℚ × ℚ :=
  match vals with
  | [] => (0, 1)
  | v :: vs => (vs.foldl min v, vs.foldl max v)

/-- The `reranked` list of `score_items` in input order (before the final
sort), with the ranges `sem_min/sem_max`, `dist_min/dist_max` prepared
exactly as in Models.py lines 119–123. -/
def rerankedInOrder (candidates : List Cand) (user_ctx : UserCtx)
    (weights : Weights) : List ScoredItem :=
  let semVals := candidates.filterMap (·.semantic)
  let distVals := candidates.filterMap (·.distance_km)
  scoreLoop (!semVals.isEmpty) (rangeOf semVals).1 (rangeOf semVals).2
    (!distVals.isEmpty) (rangeOf distVals).1 (rangeOf distVals).2
    (user_ctx.interests.getD []) weights candidates []

/-- Modelled from the spec's §4.3 formula (claim side of C1): the
*unrounded* weighted sum
`w_sem·semantic_norm + w_dist·distance_norm + w_cat·category_score + w_div·diversity_score`
for the candidate at input position `i`, with default weights
0.5 / 0.3 / 0.15 / 0.05 for any weight not supplied, built from the same
sub-score functions the code uses. -/
def specExactScore (cands : List Cand) (ctx : UserCtx) (w : Weights)
    (i : ℕ) : ℚ :=
  let c := cands.getD i {}
  let semVals := cands.filterMap (·.semantic)
  let distVals := cands.filterMap (·.distance_km)
  w.semantic.getD (1/2) * semNormOf (!semVals.isEmpty) (rangeOf semVals).1 (rangeOf semVals).2 c
    + w.distance.getD (3/10) * distNormOf (!distVals.isEmpty) (rangeOf distVals).1 (rangeOf distVals).2 c
    + w.category.getD (3/20) * category_match c.type (ctx.interests.getD [])
    + w.diversity.getD (1/20) * diversity_penalty ((cands.take i).map (·.type)) c.type

/-- `Models.score_items` (Models.py lines 109–164): score every candidate
in input order, then return the list sorted by `final_score` descending
(`sorted(..., reverse=True)`, stable). -/
def score_items (candidates : List Cand) (user_ctx : UserCtx)
    (weights : Weights) : List ScoredItem :=
  sortStableBy (fun b a => decide (a.final_score ≤ b.final_score))
    (rerankedInOrder candidates user_ctx weights)

/-- `Models.rerank` (Models.py lines 167–170): `score_items` with the
default weight dictionary spelled out. -/
def rerank (candidates : List Cand) (user_ctx : UserCtx) : List ScoredItem :=
  score_items candidates user_ctx
    { semantic := some (1/2), distance := some (3/10),
      category := some (3/20), diversity := some (1/20) }

/-! ## String helpers for `itinerary.py` / `data_preprocessor.py` -/

/-- Python's substring test `needle in hay` on lists of characters. -/
def listInfix (needle : List Char) : List Char → Bool
  | [] => needle.isEmpty
  | c :: t => needle.isPrefixOf (c :: t) || listInfix needle t

/-- Python's substring test `needle in hay` on strings. -/
def strIn (needle hay : String) : Bool := listInfix needle.toList hay.toList

/-- `str.title()` (ASCII): upper-case a letter that does not follow a
letter, lower-case a letter that does. -/
def pyTitleGo : Bool → List Char → List Char
  | _, [] => []
  | prevAlpha, c :: rest =>
      if c.isAlpha then
        (if prevAlpha then c.toLower else c.toUpper) :: pyTitleGo true rest
      else c :: pyTitleGo false rest

/-- `str.title()` on strings. -/
def pyTitle (s : String) : String := String.mk (pyTitleGo false s.toList)

/-! ## `itinerary.py`: themes and category normalization -/

/-- `TOUR_THEMES` (itinerary.py lines 16–23): theme name, keyword list,
boost (0.25 / 0.25 / 0.30 / 0.20 / 0.25 / 0.20 as rationals). -/
def TOUR_THEMES : List (String × List String × ℚ) :=
  [ ("cultural", (["museum","monument","historic","temple","gallery","heritage","church","mosque","castle","ruins"], 1/4)),
    ("adventure", (["nature","beach","desert","hiking","diving","snorkel","quad","safari","kayak","trail","climb"], 1/4)),
    ("foodies", (["restaurant","cafe","market","street food","bakery","eatery","diner"], 3/10)),
    ("family", (["park","zoo","aquarium","children","playground","amusement","family"], 1/5)),
    ("couples", (["romantic","sunset","candlelight","spa","scenic","viewpoint","resort"], 1/4)),
    ("friends", (["bar","club","sports","fun","nightlife","escape room","bowling"], 1/5)) ]

/-- `itinerary.normalize_category` (itinerary.py lines 26–36). -/
def normalize_category (raw_type : String) : String :=
  if raw_type = "" then "other"
  else
    let t := pyLower raw_type
    if ["hotel","resort","hostel","inn","lodg"].any (fun x => strIn x t) then "hotel"
    else if ["restaurant","cafe","bar","pub","food","eat"].any (fun x => strIn x t) then "restaurant"
    else if ["shop","mall","market","store","boutique","bazaar"].any (fun x => strIn x t) then "shop"
    else if ["museum","nature","beach","park","tourist","monument","landmark","viewpoint","temple","mosque","church","castle"].any (fun x => strIn x t) then "tourist place"
    else if ["club","entertainment","nightlife"].any (fun x => strIn x t) then "entertainment"
    else "other"

/-- `itinerary.classify_theme_text` (itinerary.py lines 38–47): the themes
whose keyword lists hit the (lower-cased) text, in `TOUR_THEMES` order. -/
def classify_theme_text (text : String) : List String :=
  if text = "" then []
  else TOUR_THEMES.filterMap (fun th =>
    if th.2.1.any (fun kw => strIn kw (pyLower text)) then some th.1 else none)

/-! ## `itinerary.select_with_hotel` -/

/-- A candidate dictionary as consumed by `select_with_hotel` and
`build_itinerary`'s assembly phase (all keys the code indexes directly). -/
structure SCand where
  poi_id : Int
  name : String
  type : String
  description : String
  themes : List String
  score : ℚ
  city : Option String := none
  country : Option String := none
deriving DecidableEq, Repr

/-- The synthetic anchor of the hotel fallback
(itinerary.py lines 91–98). -/
def dummyHotel : SCand :=
  { poi_id := -1, type := "hotel", score := 0,
    name := "Hotel check-in / rest", description := "", themes := [] }

/-- The `theme_score` closure of `select_with_hotel` (lines 69–70):
1 when a truthy theme is among the candidate's themes. -/
def themeScoreOf (theme : Option String) (c : SCand) : ℕ :=
  match theme with
  | some th => if th ≠ "" ∧ th ∈ c.themes then 1 else 0
  | none => 0

/-- The `for c in pool` fill loop of `select_with_hotel` (lines 74–87):
stop once `plan_size` items are selected; skip already-seen ids; add a
candidate of an unseen type, or of a seen type while fewer than two of
that type are selected. -/
def fillLoop (ps : ℕ) : List SCand → List SCand → List Int → List String → List SCand
  | [], selected, _, _ => selected
  | c :: pool, selected, seen_ids, seen_types =>
      if ps ≤ selected.length then selected
      else if c.poi_id ∈ seen_ids then fillLoop ps pool selected seen_ids seen_types
      else if c.type ∉ seen_types then
        fillLoop ps pool (selected ++ [c]) (c.poi_id :: seen_ids) (c.type :: seen_types)
      else if selected.countP (fun s => s.type == c.type) < 2 then
        fillLoop ps pool (selected ++ [c]) (c.poi_id :: seen_ids) seen_types
      else fillLoop ps pool selected seen_ids seen_types

/-- The `hotels` list of `select_with_hotel` (lines 55–56): the hotel-typed
candidates, sorted by score descending (stable). -/
def hotelsSorted (candidates : List SCand) : List SCand :=
  sortStableBy (fun b a => decide (a.score ≤ b.score))
    (candidates.filter (fun c => c.type == "hotel"))

/-- The pool sort of `select_with_hotel` (line 72): stable descending by
the lexicographic key `(theme_score, score)`. -/
def poolSorted (theme : Option String) (l : List SCand) : List SCand :=
  sortStableBy (fun b a =>
    decide (themeScoreOf theme a < themeScoreOf theme b ∨
      (themeScoreOf theme a = themeScoreOf theme b ∧ a.score ≤ b.score))) l

/-- The fill phase of `select_with_hotel` (lines 54–87): pick the
best-scoring hotel (if any) as the seed, exclude its id from the pool,
then fill from the pool sorted by `(theme_score, score)` descending. -/
def afterFill (candidates : List SCand) (ps : ℕ) (theme : Option String) : List SCand :=
  match (hotelsSorted candidates).head? with
  | some hotel_pick =>
      fillLoop ps
        (poolSorted theme (candidates.filter (fun c => decide (c.poi_id ∉ [hotel_pick.poi_id]))))
        [hotel_pick] [hotel_pick.poi_id] ["hotel"]
  | none =>
      fillLoop ps
        (poolSorted theme (candidates.filter (fun c => decide (c.poi_id ∉ ([] : List Int)))))
        [] [] []

/-- The hotel fallback of `select_with_hotel` (lines 89–98): prepend the
synthetic anchor when no selected item has type `"hotel"`. -/
def withAnchor (l : List SCand) : List SCand :=
  if l.any (fun s => s.type == "hotel") then l else dummyHotel :: l

/-- The single-hotel enforcement of `select_with_hotel` (lines 100–105). -/
def enforceSingleHotel (ps : ℕ) (l : List SCand) : List SCand :=
  if 1 < (l.filter (fun s => s.type == "hotel")).length then
    match (l.filter (fun s => s.type == "hotel")).head? with
    | some first_hotel =>
        first_hotel :: (l.filter (fun s => !(s.type == "hotel"))).take (ps - 1)
    | none => l
  else l

/-- `itinerary.select_with_hotel` (itinerary.py lines 50–107). -/
def select_with_hotel (candidates : List SCand) (plan_size : ℤ)
    (theme : Option String := none) : List SCand :=
  let ps : ℕ := (if plan_size < 2 then 2 else plan_size).toNat
  (enforceSingleHotel ps (withAnchor (afterFill candidates ps theme))).take ps

/-! ## `itinerary.build_time_slots` -/

/-- Snap a time (minutes since midnight) down to the nearest half hour
(itinerary.py lines 116–118). -/
def snap_down (m : ℕ) : ℕ :=
  if m % 60 < 30 then m - m % 60 else m - m % 60 + 30

/-- Snap a time up to the nearest half hour (itinerary.py lines 120–126). -/
def snap_up (m : ℕ) : ℕ :=
  if m % 60 = 0 then m
  else if m % 60 ≤ 30 then m - m % 60 + 30
  else m - m % 60 + 60

/-- Decimal digit-string to number (helper for `parseHM`). -/
def digitsToNat? (cs : List Char) : Option ℕ :=
  if cs ≠ [] ∧ cs.all (fun c => c.isDigit) then
    some (cs.foldl (fun acc c => acc * 10 + (c.toNat - 48)) 0)
  else none

/-- `datetime.strptime(s, "%H:%M")`, returning minutes since midnight;
`none` models the `ValueError` raised on malformed input. -/
def parseHM (s : String) : Option ℕ :=
  match s.toList.splitOn ':' with
  | [h, m] =>
      match digitsToNat? h, digitsToNat? m with
      | some hh, some mm => if hh ≤ 23 ∧ mm ≤ 59 then some (hh * 60 + mm) else none
      | _, _ => none
  | _ => none

/-- `dt.strftime("%H:%M")` of a minute count (modulo a day, as a
`datetime` rolling past midnight would print). -/
def fmtHM (m : ℕ) : String :=
  let pad2 := fun n => (if n < 10 then "0" else "") ++ toString n
  pad2 (m / 60 % 24) ++ ":" ++ pad2 (m % 60)

/-- The `for i in range(n)` loop of `build_time_slots` (lines 141–151),
with `k+1` iterations remaining (`k = 0` is the last one): the next slot
ends at `cur + step`, clamped to the day end on the last iteration or on
overrun; stop early once the end is reached. -/
def slotsGo (endM step : ℕ) : ℕ → ℕ → List (ℕ × ℕ)
  | _, 0 => []
  | cur, k + 1 =>
      let nxt := if k = 0 ∨ endM < cur + step then endM else cur + step
      (cur, nxt) :: (if endM ≤ nxt then [] else slotsGo endM step nxt k)

/-- The numeric core of `build_time_slots` over minute counts: snap the
bounds, derive `step = max(30, ceil(ceil(total/n)/30)·30)`, walk, then pad
with zero-width slots at the end and truncate to `n`.  (`total_minutes`
uses truncated `ℕ` subtraction, which is Python's `max(0, end - start)`.) -/
def timeSlotsM (s0 e0 : ℕ) (n : ℤ) : List (ℕ × ℕ) :=
  let s := snap_down s0
  let e := snap_up e0
  let total_minutes := e - s
  if n ≤ 0 ∨ total_minutes = 0 then []
  else
    let nn := n.toNat
    let raw_step := (total_minutes + nn - 1) / nn
    let step := max 30 ((raw_step + 29) / 30 * 30)
    let slots := slotsGo e step s nn
    (slots ++ List.replicate (nn - slots.length) (e, e)).take nn

/-- `itinerary.build_time_slots` (itinerary.py lines 110–154); `none`
models the `ValueError` of `strptime` on malformed time strings. -/
def build_time_slots (start_time end_time : String) (n : ℤ) :
    Option (List (String × String)) :=
  match parseHM start_time, parseHM end_time with
  | some s0, some e0 => some ((timeSlotsM s0 e0 n).map (fun p => (fmtHM p.1, fmtHM p.2)))
  | _, _ => none

/-! ## `itinerary.build_itinerary` -/

/-- A POI record as delivered by `data_preprocessor.get_pois_for_location`
(the keys `build_itinerary` reads; the preprocessor guarantees non-null
strings via its `or`-defaults). -/
structure PoiData where
  poi_id : Int
  name : String
  type : String
  description : String
  city : String
  country : String
deriving DecidableEq, Repr

/-- One entry of a day's `places` payload (itinerary.py lines 286–293);
`end_` embeds the `"end"` key. -/
structure DayPlace where
  id : Int
  name : String
  category : String
  start : String
  end_ : String
  day : ℕ
deriving DecidableEq, Repr

/-- One entry of the `days` list. -/
structure DayPlan where
  day : ℕ
  places : List DayPlace
deriving DecidableEq, Repr

/-- The dictionary returned by `build_itinerary`. -/
structure ItinResult where
  days_count : ℕ
  name : String
  short_description : String
  days : List DayPlan
deriving DecidableEq, Repr

/-- `TOUR_THEMES[theme]["boost"]` (total with an unreachable 0 default:
the lookup is guarded by `theme in themes` and every theme tag comes from
`TOUR_THEMES`). -/
def themeBoost (th : String) : ℚ :=
  ((TOUR_THEMES.find? (fun p => p.1 == th)).map (fun p => p.2.2)).getD 0

/-- The candidate built from one POI record (itinerary.py lines 196–214):
normalized category, heuristic themes from `"{type} {name} {description}"`,
base score 1.0 plus the theme boost on a match with a truthy theme. -/
def mkCandidate (theme : Option String) (p : PoiData) : SCand :=
  let base_type := normalize_category p.type
  let themes := classify_theme_text (base_type ++ " " ++ p.name ++ " " ++ p.description)
  let score : ℚ :=
    match theme with
    | some th => if th ≠ "" ∧ th ∈ themes then 1 + themeBoost th else 1
    | none => 1
  { poi_id := p.poi_id, name := p.name, type := base_type,
    description := p.description, themes := themes, score := score,
    city := some p.city, country := some p.country }

/-- The days-count heuristic (itinerary.py lines 228–236). -/
def daysCountFor (available_places : ℕ) : ℕ :=
  if 25 ≤ available_places then min 6 (max 5 (available_places / 5))
  else if 20 ≤ available_places then 4
  else if 15 ≤ available_places then 3
  else 3

/-- The `"Free time / transit"` filler (itinerary.py lines 259–268). -/
def fillerItem (city country : String) : SCand :=
  { poi_id := -2, name := "Free time / transit", type := "free time",
    description := "Buffer time for rest or transit", themes := [],
    score := 0, city := some city, country := some country }

/-- `famous_cities` of `generate_tour_name` (itinerary.py lines 306–317). -/
def famousCities : List (String × String) :=
  [ ("paris", "Parisian Adventure"), ("london", "London Explorer"),
    ("tokyo", "Tokyo Discovery"), ("new york", "NYC Experience"),
    ("rome", "Roman Holiday"), ("cairo", "Cairo Explorer"),
    ("dubai", "Dubai Luxury"), ("barcelona", "Barcelona Vibes"),
    ("sydney", "Sydney Explorer"), ("mumbai", "Mumbai Discovery") ]

/-- `generate_tour_name` (itinerary.py lines 300–323). -/
def generate_tour_name (city : String) (days_count : ℕ) : String :=
  match famousCities.find? (fun p => p.1 == pyLower city) with
  | some p => toString days_count ++ "-Day " ++ p.2
  | none => toString days_count ++ "-Day " ++ pyTitle city ++ " Discovery"

/-- `generate_tour_description` (itinerary.py lines 325–340). -/
def generate_tour_description (city country : String) (days_count per_day total_places : ℕ) : String :=
  let duration_desc :=
    if days_count = 3 then "Perfect weekend getaway"
    else if days_count = 4 then "Comprehensive exploration"
    else if days_count = 5 then "Deep cultural immersion"
    else if days_count = 6 then "Ultimate travel experience"
    else toString days_count ++ "-day adventure"
  "A " ++ duration_desc ++ " in " ++ pyTitle city ++ ", " ++ pyTitle country
    ++ ". Discover " ++ toString total_places ++ " carefully selected places across "
    ++ toString days_count ++ " days, with " ++ toString per_day
    ++ " unique experiences each day."

/-- `itinerary.build_itinerary` (itinerary.py lines 157–351), parametrised
by the POI list the data layer resolved for `(city, country)` (the
`get_pois_for_location` call of line 178; the one-off initialization of
the global preprocessor is outside this pure core).  `none` models the
`ValueError` a malformed `start_time`/`end_time` raises inside
`build_time_slots` during day assembly — hoisted, since slot tiling is
reached for every day or none. -/
def build_itinerary (city country : String) (pois_data : List PoiData)
    (start_time : String := "09:00") (end_time : String := "22:00")
    (theme : Option String := none) : Option ItinResult :=
  if pois_data.isEmpty then
    some { days_count := 0, name := "Trip in " ++ city,
           short_description := "No places found for " ++ city ++ ", " ++ country,
           days := [] }
  else
    let candidates := pois_data.map (mkCandidate theme)
    if candidates.isEmpty then
      some { days_count := 0, name := "Trip in " ++ city,
             short_description := "No places found", days := [] }
    else
      match parseHM start_time, parseHM end_time with
      | some s0, some e0 =>
          let available_places := candidates.length
          let days_count := daysCountFor available_places
          let per_day := 5
          let total_needed := days_count * per_day
          let selected := select_with_hotel candidates (total_needed : ℤ) theme
          let selected := sortStableBy (fun b a => decide
            ((if b.type == "hotel" then 0 else 1) < (if a.type == "hotel" then (0:ℕ) else 1) ∨
              ((if b.type == "hotel" then (0:ℕ) else 1) = (if a.type == "hotel" then 0 else 1) ∧
                a.score ≤ b.score))) selected
          let selected :=
            if selected.length < total_needed then
              let selected_ids := selected.map (fun s => s.poi_id)
              let remaining := sortStableBy (fun b a => decide (a.score ≤ b.score))
                (candidates.filter (fun c => decide (c.poi_id ∉ selected_ids)))
              let selected := selected ++ remaining.take (total_needed - selected.length)
              selected ++ List.replicate (total_needed - selected.length)
                (fillerItem city country)
            else selected
          let days := (List.range days_count).map (fun day_index =>
            let day_places := (selected.drop (day_index * per_day)).take per_day
            let time_slots := (timeSlotsM s0 e0 (day_places.length : ℤ)).map
              (fun p => (fmtHM p.1, fmtHM p.2))
            { day := day_index + 1,
              places := (day_places.zip time_slots).map (fun pc =>
                { id := pc.1.poi_id, name := pc.1.name, category := pc.1.type,
                  start := pc.2.1, end_ := pc.2.2, day := day_index + 1 }) })
          some { days_count := days_count,
                 name := generate_tour_name city days_count,
                 short_description := generate_tour_description city country
                   days_count per_day (days_count * per_day),
                 days := days }
      | _, _ => none

/-! ## `data_preprocessor.py` -/

/-- The sort of `available_locations` in
`POIDataPreprocessor.load_all_data` (data_preprocessor.py line 88):
`sort(key=lambda x: x[2], reverse=True)` — stable, POI count descending.
Entries are `(city, country, count)`. -/
def sortLocationsByCount (l : List (String × String × ℕ)) : List (String × String × ℕ) :=
  sortStableBy (fun b a => decide (a.2.2 ≤ b.2.2)) l

/-- `POIDataPreprocessor.get_location_suggestions`
(data_preprocessor.py lines 158–171): keep the locations whose city
contains the partial city or whose country contains the partial country
(case-insensitively, an empty partial matching everything), in stored
order, capped at 20. -/
def get_location_suggestions (partial_city partial_country : String)
    (available_locations : List (String × String × ℕ)) : List (String × String × ℕ) :=
  let partial_city_lower := pyLower partial_city
  let partial_country_lower := pyLower partial_country
  (available_locations.filter (fun loc =>
      (partial_city_lower == "" || strIn partial_city_lower (pyLower loc.1)) ||
      (partial_country_lower == "" || strIn partial_country_lower (pyLower loc.2.1)))).take 20

/-! ## Concrete inputs used by witnesses and counterexamples -/

/-- Three candidates carrying only semantic signals 0, 3, 1: the third
one's exact weighted sum is 19/60, which is not representable in the 3
decimal places `score_items` stores. -/
def cexC1 : List Cand :=
  [ { poi_id := some 1, semantic := some 0 },
    { poi_id := some 2, semantic := some 3 },
    { poi_id := some 3, semantic := some 1 } ]

/-- Two candidates with semantic signals 1 and 2, and a third lacking the
key: its missing signal is read as raw 0.0 and normalized against `[1, 2]`. -/
def cexC4 : List Cand :=
  [ { poi_id := some 1, semantic := some 1 },
    { poi_id := some 2, semantic := some 2 },
    { poi_id := some 3 } ]

/-- Two candidates with the empty string as type: the second one's
diversity penalty short-circuits to 0.0. -/
def cexC5 : List Cand := [ { type := some "" }, { type := some "" } ]

/-- Two candidates of the same type up to case, for the diversity
penalty's case-insensitive running count. -/
def cexC5b : List Cand := [ { type := some "Museum" }, { type := some "museum" } ]

/-- A hotel-free candidate pool for exercising the anchor fallback. -/
def wCandsNoHotel : List SCand :=
  [ { poi_id := 20, name := "M1", type := "tourist place", description := "",
      themes := [], score := 3 },
    { poi_id := 21, name := "M2", type := "restaurant", description := "",
      themes := [], score := 4 } ]

/-- A pool with one hotel and a duplicated entry, for the
distinct-ids invariant. -/
def wCandsDup : List SCand :=
  [ { poi_id := 10, name := "H1", type := "hotel", description := "",
      themes := [], score := 5 },
    { poi_id := 20, name := "M1", type := "tourist place", description := "",
      themes := [], score := 3 },
    { poi_id := 20, name := "M1", type := "tourist place", description := "",
      themes := [], score := 3 } ]

/-! # Theorems

General lemmas about the embedding, followed by one theorem per claim
(with witnesses and counterexamples where called for). -/

/-! ## Stable-sort lemmas -/

theorem insertStableBy_perm (keep : α → α → Bool) (a : α) (l : List α) :
    List.Perm (insertStableBy keep a l) (a :: l) := by
  induction l with
  | nil => exact List.Perm.refl _
  | cons b t ih =>
      unfold insertStableBy
      by_cases h : keep b a
      · simp only [h, if_true]
        exact (ih.cons b).trans (List.Perm.swap a b t)
      · simp [h]

theorem sortStableBy_perm_aux (keep : α → α → Bool) :
    ∀ (l acc : List α),
      List.Perm (List.foldl (fun acc a => insertStableBy keep a acc) acc l) (acc ++ l) := by
  intro l
  induction l with
  | nil => intro acc; simp
  | cons x t ih =>
      intro acc
      have h1 := ih (insertStableBy keep x acc)
      have h2 : List.Perm (insertStableBy keep x acc ++ t) ((x :: acc) ++ t) :=
        (insertStableBy_perm keep x acc).append_right t
      exact (h1.trans h2).trans List.perm_middle.symm

theorem sortStableBy_perm (keep : α → α → Bool) (l : List α) :
    List.Perm (sortStableBy keep l) l := by
  simpa using sortStableBy_perm_aux keep l []

theorem sortStableBy_mem (keep : α → α → Bool) (l : List α) (x : α) :
    x ∈ sortStableBy keep l ↔ x ∈ l :=
  (sortStableBy_perm keep l).mem_iff

theorem insertStableBy_pairwise {R : α → α → Prop} {keep : α → α → Bool}
    (hkeepT : ∀ x y, keep x y = true → R x y)
    (hkeepF : ∀ x y, keep x y = false → R y x)
    (htrans : ∀ x y z, R x y → R y z → R x z)
    (a : α) (l : List α) (hl : List.Pairwise R l) :
    List.Pairwise R (insertStableBy keep a l) := by
  induction l with
  | nil => simp [insertStableBy]
  | cons b t ih =>
      rcases List.pairwise_cons.mp hl with ⟨hb, ht⟩
      unfold insertStableBy
      by_cases h : keep b a
      · simp only [h, if_true]
        refine List.pairwise_cons.mpr ⟨?_, ih ht⟩
        intro y hy
        rcases List.mem_cons.mp ((insertStableBy_perm keep a t).subset hy) with hya | hyt
        · exact hya ▸ hkeepT b a h
        · exact hb y hyt
      · simp only [h, if_false, Bool.false_eq_true]
        refine List.pairwise_cons.mpr ⟨?_, hl⟩
        intro y hy
        have hab : R a b := hkeepF b a (by simpa using h)
        rcases List.mem_cons.mp hy with hyb | hyt
        · exact hyb ▸ hab
        · exact htrans a b y hab (hb y hyt)

theorem sortStableBy_pairwise {R : α → α → Prop} {keep : α → α → Bool}
    (hkeepT : ∀ x y, keep x y = true → R x y)
    (hkeepF : ∀ x y, keep x y = false → R y x)
    (htrans : ∀ x y z, R x y → R y z → R x z)
    (l : List α) : List.Pairwise R (sortStableBy keep l) := by
  suffices h : ∀ (l acc : List α), List.Pairwise R acc →
      List.Pairwise R (List.foldl (fun acc a => insertStableBy keep a acc) acc l) by
    exact h l [] (by simp)
  intro l
  induction l with
  | nil => intro acc hacc; simpa using hacc
  | cons x t ih =>
      intro acc hacc
      exact ih (insertStableBy keep x acc)
        (insertStableBy_pairwise hkeepT hkeepF htrans x acc hacc)

/-! ## `normalize_score` on finite floats -/

/-- On finite inputs `normalize_score` agrees with its rational restriction
`normQ`: the `isfinite` test passes and the divisor is nonzero. -/
theorem normalize_score_finite (v a b : ℚ) :
    normalize_score (.finite v) (.finite a) (.finite b) = .finite (normQ v a b) := by
  unfold normalize_score normQ PyFloat.pyEq PyFloat.isfinite PyFloat.pySub
  by_cases h : b = a
  · simp [h]
  · simp only [beq_iff_eq, h, if_false, Bool.not_true, Bool.not_false]
    simp [PyFloat.pyDiv, beq_iff_eq, sub_eq_zero, h]

/-! ## Pointwise characterisation of the scoring loop -/

theorem scoreLoop_getElem? (hs : Bool) (sm sM : ℚ) (hd : Bool) (dm dM : ℚ)
    (ints : List String) (w : Weights) :
    ∀ (cands : List Cand) (sel : List (Option String)) (i : ℕ), i < cands.length →
      (scoreLoop hs sm sM hd dm dM ints w cands sel)[i]? =
        some (scoreOne hs sm sM hd dm dM ints w
          (sel ++ (cands.take i).map (fun c => c.type)) (cands.getD i {})) := by
  intro cands
  induction cands with
  | nil => intro sel i h; simp at h
  | cons c rest ih =>
      intro sel i h
      cases i with
      | zero => simp [scoreLoop]
      | succ n =>
          have hn : n < rest.length := by simpa using h
          have := ih (sel ++ [c.type]) n hn
          simpa [scoreLoop, List.append_assoc] using this

theorem rerankedInOrder_getElem? (cands : List Cand) (ctx : UserCtx) (w : Weights)
    (i : ℕ) (h : i < cands.length) :
    (rerankedInOrder cands ctx w)[i]? =
      some (scoreOne (!(cands.filterMap (fun c => c.semantic)).isEmpty)
        (rangeOf (cands.filterMap (fun c => c.semantic))).1
        (rangeOf (cands.filterMap (fun c => c.semantic))).2
        (!(cands.filterMap (fun c => c.distance_km)).isEmpty)
        (rangeOf (cands.filterMap (fun c => c.distance_km))).1
        (rangeOf (cands.filterMap (fun c => c.distance_km))).2
        (ctx.interests.getD []) w
        ((cands.take i).map (fun c => c.type)) (cands.getD i {})) := by
  unfold rerankedInOrder
  simpa using scoreLoop_getElem? _ _ _ _ _ _ _ _ cands [] i h

/-! ## Claim C3 -/

/-- **C3, corrected.**  `normalize_score(v, lo, hi)` returns 0.5 whenever
`lo == hi` (Python float equality); for finite `v` with `lo < hi` it
returns exactly `(v − lo)/(hi − lo)` — which lies in [0,1] *iff*
`lo ≤ v ≤ hi`.  Values are indeed not clamped, so (contrary to the claim)
a finite `v` outside `[lo, hi]` yields a result outside [0,1]. -/
theorem C3_normalize_not_clamped (v lo hi : PyFloat) (q a b : ℚ) (hab : a < b) :
    (PyFloat.pyEq hi lo = true → normalize_score v lo hi = .finite (1/2)) ∧
    normalize_score (.finite q) (.finite a) (.finite b) = .finite ((q - a) / (b - a)) ∧
    ((0 ≤ (q - a) / (b - a) ∧ (q - a) / (b - a) ≤ 1) ↔ (a ≤ q ∧ q ≤ b)) := by
  have hba : (0:ℚ) < b - a := sub_pos.mpr hab
  refine ⟨?_, ?_, ?_⟩
  · intro h; unfold normalize_score; simp [h]
  · rw [normalize_score_finite]; unfold normQ
    have hne : (b == a) = false := by
      simp only [beq_eq_false_iff_ne]; exact ne_of_gt hab
    simp [hne]
  · constructor
    · rintro ⟨h1, h2⟩
      rw [div_le_one hba] at h2
      have h1' : 0 ≤ q - a := by
        have := (le_div_iff₀ hba).mp h1
        linarith [this]
      constructor <;> linarith
    · rintro ⟨h1, h2⟩
      refine ⟨div_nonneg (by linarith) hba.le, ?_⟩
      rw [div_le_one hba]; linarith

/-- Witness for C3 at `v = 5, lo = hi = 7` and `q = 2, a = 0, b = 1`. -/
theorem C3_witness :
    (0:ℚ) < 1 ∧
    ((PyFloat.pyEq (.finite 7) (.finite 7) = true →
        normalize_score (.finite 5) (.finite 7) (.finite 7) = .finite (1/2)) ∧
      normalize_score (.finite 2) (.finite 0) (.finite 1) = .finite ((2 - 0) / (1 - 0)) ∧
      ((0 ≤ ((2:ℚ) - 0) / (1 - 0) ∧ ((2:ℚ) - 0) / (1 - 0) ≤ 1) ↔ ((0:ℚ) ≤ 2 ∧ (2:ℚ) ≤ 1))) :=
  ⟨by norm_num,
    C3_normalize_not_clamped (.finite 5) (.finite 7) (.finite 7) 2 0 1 (by norm_num)⟩

/-- Counterexample to C3 as stated: the finite value 2 with range
`lo = 0 < 1 = hi` is mapped to 2, which is not in [0,1]. -/
theorem C3_counterexample :
    normalize_score (.finite 2) (.finite 0) (.finite 1) = .finite 2 ∧
      ¬((0:ℚ) ≤ 2 ∧ (2:ℚ) ≤ 1) := by
  constructor
  · rw [normalize_score_finite]
    unfold normQ
    norm_num
  · norm_num

/-! ## Claim C9 -/

/-- **C9, corrected.**  `normalize_score` checks `max_val == min_val`
*before* the finiteness guard, so a non-finite `value` yields 0.0 only when
`min ≠ max` (Python float `==`); when `min == max` the result is 0.5 for
every `value`, non-finite ones included.  (The function is a total Lean
function — the only Python statement of its body that could raise, the
division, is reached with a provably nonzero divisor, and the
`try/except` wrapper is modelled explicitly in `normalize_score`.) -/
theorem C9_nonfinite_default (v lo hi : PyFloat) :
    (v.isfinite = false → PyFloat.pyEq hi lo = false → normalize_score v lo hi = .finite 0) ∧
    (PyFloat.pyEq hi lo = true → normalize_score v lo hi = .finite (1/2)) := by
  constructor
  · intro h1 h2; unfold normalize_score; simp [h1, h2]
  · intro h; unfold normalize_score; simp [h]

/-- Witness for C9 at `v = nan`, `lo = 0`, `hi = 1`. -/
theorem C9_witness :
    PyFloat.isfinite PyFloat.nan = false ∧
    PyFloat.pyEq (.finite 1) (.finite 0) = false ∧
    normalize_score PyFloat.nan (.finite 0) (.finite 1) = .finite 0 := by
  have h1 : PyFloat.isfinite PyFloat.nan = false := rfl
  have h2 : PyFloat.pyEq (.finite 1) (.finite 0) = false := by
    unfold PyFloat.pyEq; norm_num
  exact ⟨h1, h2, (C9_nonfinite_default PyFloat.nan (.finite 0) (.finite 1)).1 h1 h2⟩

/-- Counterexample to C9 as stated: for the non-finite value `inf` with the
degenerate range `min = max = 1`, `normalize_score` returns 0.5, not 0.0. -/
theorem C9_counterexample :
    normalize_score PyFloat.inf (.finite 1) (.finite 1) = .finite (1/2) ∧
      PyFloat.finite (1/2) ≠ PyFloat.finite 0 := by
  constructor
  · unfold normalize_score PyFloat.pyEq; simp
  · simp only [ne_eq, PyFloat.finite.injEq]
    norm_num

/-! ## Exactness of `round3` on multiples of 1/1000 -/

theorem roundHalfEven_intCast (z : ℤ) : roundHalfEven (z : ℚ) = z := by
  unfold roundHalfEven
  norm_num

theorem round3_thousandths (z : ℤ) : round3 ((z : ℚ) / 1000) = (z : ℚ) / 1000 := by
  unfold round3
  rw [div_mul_cancel₀ _ (by norm_num : (1000:ℚ) ≠ 0), roundHalfEven_intCast]

theorem round3_intCast (z : ℤ) : round3 (z : ℚ) = z := by
  have h : (z : ℚ) = ((1000 * z : ℤ) : ℚ) / 1000 := by push_cast; ring
  rw [h, round3_thousandths]

theorem round3_half : round3 (1/2 : ℚ) = 1/2 := by
  have h : (1/2 : ℚ) = ((500 : ℤ) : ℚ) / 1000 := by norm_num
  rw [h, round3_thousandths]

theorem round3_neg_fifth_mul (k : ℕ) :
    round3 ((-(1/5)) * (k : ℚ)) = (-(1/5)) * (k : ℚ) := by
  have h : ((-(1/5)) : ℚ) * (k : ℚ) = ((-200 * (k : ℤ) : ℤ) : ℚ) / 1000 := by
    push_cast; ring
  rw [h, round3_thousandths]

/-! ## Claim C4 -/

/-- **C4, corrected.**  A candidate lacking `distance_km` always gets the
neutral 0.5 distance sub-score; but a candidate lacking `semantic` gets the
neutral 0.5 only when *no* candidate in the list carries a semantic value —
when other candidates do, the missing value is read as raw 0.0
(`c.get("semantic", 0.0)`) and normalized against the list's semantic
range, which in general is not 0.5. -/
theorem C4_missing_signal_defaults (cands : List Cand) (ctx : UserCtx)
    (w : Weights) (i : ℕ) (h : i < cands.length) :
    ((cands.getD i {}).distance_km = none →
      ((rerankedInOrder cands ctx w)[i]?.map (fun r => r.distance)) = some (1/2)) ∧
    ((cands.getD i {}).semantic = none → cands.filterMap (fun c => c.semantic) = [] →
      ((rerankedInOrder cands ctx w)[i]?.map (fun r => r.semantic)) = some (1/2)) ∧
    (∀ v vs, (cands.getD i {}).semantic = none →
      cands.filterMap (fun c => c.semantic) = v :: vs →
      ((rerankedInOrder cands ctx w)[i]?.map (fun r => r.semantic)) =
        some (round3 (normQ 0 (vs.foldl min v) (vs.foldl max v)))) := by
  rw [rerankedInOrder_getElem? cands ctx w i h]
  refine ⟨?_, ?_, ?_⟩
  · intro hd
    simp only [Option.map_some', scoreOne, distNormOf, hd]
    rw [round3_half]
  · intro hs hall
    simp only [Option.map_some', scoreOne, semNormOf, hall, List.isEmpty_nil,
      Bool.not_true, if_false, Bool.false_eq_true]
    rw [round3_half]
  · intro v vs hs hcons
    simp only [Option.map_some', scoreOne, semNormOf, hcons, hs, rangeOf,
      List.isEmpty_cons, Bool.not_false, if_true, Option.getD_none]

/-- Witness for C4: the missing-distance and no-semantics cases at
`cexC4[2]` / `cexC5[0]`, and the missing-semantic-among-others case at
`cexC4[2]` with semantic range `[1, 2]`. -/
theorem C4_witness :
    ((rerankedInOrder cexC4 {} {})[2]?.map (fun r => r.distance)) = some (1/2) ∧
    ((rerankedInOrder cexC5 {} {})[0]?.map (fun r => r.semantic)) = some (1/2) ∧
    ((rerankedInOrder cexC4 {} {})[2]?.map (fun r => r.semantic)) =
      some (round3 (normQ 0 ([(2:ℚ)].foldl min 1) ([(2:ℚ)].foldl max 1))) :=
  ⟨(C4_missing_signal_defaults cexC4 {} {} 2 (by norm_num [cexC4])).1 rfl,
   (C4_missing_signal_defaults cexC5 {} {} 0 (by norm_num [cexC5])).2.1 rfl rfl,
   (C4_missing_signal_defaults cexC4 {} {} 2 (by norm_num [cexC4])).2.2 1 [2] rfl rfl⟩

/-- Counterexample to C4 as stated: in `cexC4` the third candidate lacks
the `semantic` key while the others carry 1 and 2, and its stored
semantic sub-score is −1 (raw 0.0 normalized against `[1, 2]`), not 0.5. -/
theorem C4_counterexample :
    ((rerankedInOrder cexC4 {} {})[2]?.map (fun r => r.semantic)) = some ((-1 : ℚ)) ∧
      ((-1 : ℚ) ≠ 1/2) := by
  constructor
  · rw [rerankedInOrder_getElem? cexC4 {} {} 2 (by norm_num [cexC4])]
    have hsem : cexC4.filterMap (fun c => c.semantic) = [1, 2] := rfl
    simp only [Option.map_some', scoreOne, semNormOf, hsem, rangeOf,
      List.isEmpty_cons, Bool.not_false, if_true]
    have hmin : List.foldl min (1:ℚ) [2] = 1 := by
      simp [List.foldl, min_def]
    have hmax : List.foldl max (1:ℚ) [2] = 2 := by
      simp [List.foldl, max_def]
    rw [hmin, hmax]
    have hq : normQ ((cexC4.getD 2 {}).semantic.getD 0) 1 2 = -1 := by
      unfold normQ
      norm_num [cexC4]
    rw [hq]
    have : round3 (-1 : ℚ) = -1 := by
      have h := round3_intCast (-1)
      push_cast at h
      exact h
    rw [this]
  · norm_num

theorem round3_zero : round3 (0:ℚ) = 0 := by
  have h := round3_intCast 0
  push_cast at h
  exact h

/-! ## Claim C5 -/

/-- **C5, corrected.**  The diversity sub-score of the candidate at input
position `i` is the sequential running penalty −0.2 × (number of
already-scored candidates whose type matches case-insensitively) —
*provided the candidate's type is a non-empty string*.  A candidate whose
type is missing or empty short-circuits to 0.0 (Python's falsy test),
even when earlier candidates carry the same (empty) type. -/
theorem C5_sequential_diversity (cands : List Cand) (ctx : UserCtx)
    (w : Weights) (i : ℕ) (h : i < cands.length) :
    (((cands.getD i {}).type.getD "" = "") →
      ((rerankedInOrder cands ctx w)[i]?.map (fun r => r.diversity_score)) = some 0) ∧
    (∀ t, (cands.getD i {}).type = some t → t ≠ "" →
      ((rerankedInOrder cands ctx w)[i]?.map (fun r => r.diversity_score)) =
        some ((-(1/5)) * (((cands.take i).countP
          (fun c => pyLower (c.type.getD "") == pyLower t) : ℕ) : ℚ))) := by
  rw [rerankedInOrder_getElem? cands ctx w i h]
  constructor
  · intro ht
    simp only [Option.map_some', scoreOne, diversity_penalty, ht, if_true]
    rw [round3_zero]
  · intro t ht hne
    simp only [Option.map_some', scoreOne, diversity_penalty, ht,
      Option.getD_some, hne, if_false]
    rw [List.countP_map]
    have hcomp : ((fun c : Option String => pyLower (c.getD "") == pyLower t) ∘
        (fun c : Cand => c.type)) = (fun c : Cand => pyLower (c.type.getD "") == pyLower t) := rfl
    rw [hcomp, round3_neg_fifth_mul]

/-- Witness for C5: a type-less candidate gets 0, and `cexC5b[1]`
(type `"museum"`, preceded by `"Museum"`) gets the running penalty. -/
theorem C5_witness :
    ((rerankedInOrder cexC1 {} {})[0]?.map (fun r => r.diversity_score)) = some 0 ∧
    ((rerankedInOrder cexC5b {} {})[1]?.map (fun r => r.diversity_score)) =
      some ((-(1/5)) * (((cexC5b.take 1).countP
        (fun c => pyLower (c.type.getD "") == pyLower ("museum" : String)) : ℕ) : ℚ)) :=
  ⟨(C5_sequential_diversity cexC1 {} {} 0 (by norm_num [cexC1])).1 rfl,
   (C5_sequential_diversity cexC5b {} {} 1 (by norm_num [cexC5b])).2 "museum" rfl
     (by decide)⟩

/-- Counterexample to C5 as stated: in `cexC5` both candidates carry the
empty type, which matches itself case-insensitively, yet the second
candidate's diversity score is 0 rather than −0.2 × 1. -/
theorem C5_counterexample :
    ((rerankedInOrder cexC5 {} {})[1]?.map (fun r => r.diversity_score)) = some 0 ∧
    (cexC5.take 1).countP (fun c => (c.type.getD "") == ("" : String)) = 1 ∧
    ((0:ℚ) ≠ (-(1/5)) * 1) := by
  refine ⟨?_, by decide, by norm_num⟩
  rw [rerankedInOrder_getElem? cexC5 {} {} 1 (by norm_num [cexC5])]
  simp only [Option.map_some', scoreOne, diversity_penalty]
  have ht : ((cexC5.getD 1 {}).type.getD "" = "") := rfl
  simp only [ht, if_true]
  rw [round3_zero]

/-! ## Claim C1 -/

/-- **C1, corrected.**  `score_items` assigns each candidate the weighted
sum `w_sem·semantic_norm + w_dist·distance_norm + w_cat·category_score +
w_div·diversity_score` *rounded to 3 decimal places* (`round(·, 3)`), with
default weights 0.5 / 0.3 / 0.15 / 0.05 for any weight not supplied, and
returns the scored candidates sorted by this rounded `final_score`
descending: the output is a permutation of the in-order scored list whose
`final_score` fields are non-increasing, and the item built for input
position `i` carries `round3` of the exact §4.3 sum (`specExactScore`). -/
theorem C1_weighted_sum_rounded (cands : List Cand) (ctx : UserCtx) (w : Weights) :
    List.Perm (score_items cands ctx w) (rerankedInOrder cands ctx w) ∧
    List.Pairwise (fun x y => y.final_score ≤ x.final_score) (score_items cands ctx w) ∧
    (∀ i, i < cands.length →
      ((rerankedInOrder cands ctx w)[i]?.map (fun r => r.final_score)) =
        some (round3 (specExactScore cands ctx w i))) := by
  refine ⟨sortStableBy_perm _ _, ?_, ?_⟩
  · exact @sortStableBy_pairwise ScoredItem
      (fun x y => y.final_score ≤ x.final_score)
      (fun b a => decide (a.final_score ≤ b.final_score))
      (fun x y hxy => of_decide_eq_true hxy)
      (fun x y hxy => le_of_not_le (fun hc => by simp [hc] at hxy))
      (fun x y z h1 h2 => le_trans h2 h1)
      (rerankedInOrder cands ctx w)
  · intro i hi
    rw [rerankedInOrder_getElem? cands ctx w i hi]
    simp only [Option.map_some', scoreOne]
    rfl

/-- Witness for C1 at `cexC1`, position 2. -/
theorem C1_witness :
    (2 < cexC1.length) ∧
    ((rerankedInOrder cexC1 {} {})[2]?.map (fun r => r.final_score)) =
      some (round3 (specExactScore cexC1 {} {} 2)) :=
  ⟨by norm_num [cexC1],
   (C1_weighted_sum_rounded cexC1 {} {}).2.2 2 (by norm_num [cexC1])⟩

/-- Counterexample to C1 as stated: for `cexC1` the item scored for the
third candidate stores `final_score = 0.317`, while its exact weighted sum
is 19/60 = 0.31666… — `score_items` stores the value rounded to 3 decimal
places, not the exact sum. -/
theorem C1_counterexample :
    ((rerankedInOrder cexC1 {} {})[2]?.map (fun r => r.final_score)) = some (317/1000) ∧
    specExactScore cexC1 {} {} 2 = 19/60 ∧
    ((317:ℚ)/1000 ≠ 19/60) := by
  have hsem : cexC1.filterMap (fun c => c.semantic) = [0, 3, 1] := rfl
  have hdist : cexC1.filterMap (fun c => c.distance_km) = [] := rfl
  have hc : cexC1.getD 2 {} = { poi_id := some 3, semantic := some 1 } := rfl
  have hmin : List.foldl min (0:ℚ) [3, 1] = 0 := by norm_num [List.foldl, min_def]
  have hmax : List.foldl max (0:ℚ) [3, 1] = 3 := by norm_num [List.foldl, max_def]
  have hexact : specExactScore cexC1 {} {} 2 = 19/60 := by
    simp only [specExactScore, hsem, hdist, hc, rangeOf, semNormOf, distNormOf,
      category_match, diversity_penalty, List.isEmpty_cons, List.isEmpty_nil,
      Bool.not_false, Bool.not_true, Option.getD_some, Option.getD_none, normQ,
      beq_iff_eq, hmin, hmax]
    norm_num
  have hround : round3 (19/60 : ℚ) = 317/1000 := by
    have hmul : (19/60 : ℚ) * 1000 = 950/3 := by norm_num
    have hfl : ⌊(950/3 : ℚ)⌋ = 316 := by norm_num
    unfold round3 roundHalfEven
    rw [hmul, hfl]
    norm_num
  refine ⟨?_, hexact, by norm_num⟩
  rw [rerankedInOrder_getElem? cexC1 {} {} 2 (by norm_num [cexC1])]
  simp only [Option.map_some', scoreOne]
  show some (round3 (specExactScore cexC1 {} {} 2)) = some (317/1000)
  rw [hexact, hround]

/-! ## Claim C7 -/

/-- **C7, confirmed.**  When the data layer resolves no POIs for the
requested `(city, country)`, `build_itinerary` returns (rather than
raising — the embedding is a total function on this branch, reached before
any time parsing) a zero-day itinerary: `days_count = 0`, an empty `days`
list, and a `short_description` stating that no places were found. -/
theorem C7_empty_location (city country : String) (start_time end_time : String)
    (theme : Option String) :
    build_itinerary city country [] start_time end_time theme =
      some { days_count := 0, name := "Trip in " ++ city,
             short_description := "No places found for " ++ city ++ ", " ++ country,
             days := [] } := rfl

/-! ## Claim C8 -/

theorem listInfix_nil (l : List Char) : listInfix [] l = true := by
  induction l with
  | nil => rfl
  | cons c t ih => simp [listInfix, List.isPrefixOf, ih]

/-- The empty string is a substring of every string (Python `"" in s`). -/
theorem strIn_empty (s : String) : strIn "" s = true := listInfix_nil s.toList

/-- **C8, confirmed.**  On the location table as sorted by
`load_all_data` (POI count descending), `get_location_suggestions` returns
only entries whose city contains the partial city or whose country
contains the partial country, case-insensitively (an empty partial is
contained in everything), returns at most 20 entries, and the returned
entries are ordered by POI count descending. -/
theorem C8_location_suggestions (pc pco : String)
    (locs : List (String × String × ℕ)) :
    (∀ e ∈ get_location_suggestions pc pco (sortLocationsByCount locs),
      e ∈ sortLocationsByCount locs ∧
        (strIn (pyLower pc) (pyLower e.1) = true ∨ strIn (pyLower pco) (pyLower e.2.1) = true)) ∧
    (get_location_suggestions pc pco (sortLocationsByCount locs)).length ≤ 20 ∧
    List.Pairwise (fun a b => b.2.2 ≤ a.2.2)
      (get_location_suggestions pc pco (sortLocationsByCount locs)) := by
  refine ⟨?_, ?_, ?_⟩
  · intro e he
    unfold get_location_suggestions at he
    have hf := (List.take_sublist 20 _).subset he
    have hmem := List.mem_of_mem_filter hf
    have hpred := List.of_mem_filter hf
    refine ⟨hmem, ?_⟩
    simp only [Bool.or_eq_true, beq_iff_eq] at hpred
    rcases hpred with (hc | hc) | (hc | hc)
    · left; rw [hc]; exact strIn_empty _
    · left; exact hc
    · right; rw [hc]; exact strIn_empty _
    · right; exact hc
  · unfold get_location_suggestions
    simp [List.length_take_le 20]
  · unfold get_location_suggestions
    have hsorted : List.Pairwise (fun a b : String × String × ℕ => b.2.2 ≤ a.2.2)
        (sortLocationsByCount locs) :=
      @sortStableBy_pairwise (String × String × ℕ)
        (fun a b => b.2.2 ≤ a.2.2)
        (fun b a => decide (a.2.2 ≤ b.2.2))
        (fun x y hxy => of_decide_eq_true hxy)
        (fun x y hxy => le_of_not_le (fun hc => by simp [hc] at hxy))
        (fun x y z h1 h2 => le_trans h2 h1)
        locs
    exact ((hsorted.filter _).sublist (List.take_sublist 20 _))

/-- Witness for C8 on a two-entry location table with partial city
`"cai"`. -/
theorem C8_witness :
    ("Cairo", "Egypt", (30:ℕ)) ∈ get_location_suggestions "cai" ""
        (sortLocationsByCount [("Giza", "Egypt", 12), ("Cairo", "Egypt", 30)]) ∧
    (("Cairo", "Egypt", (30:ℕ)) ∈
        sortLocationsByCount [("Giza", "Egypt", 12), ("Cairo", "Egypt", 30)] ∧
      (strIn (pyLower "cai") (pyLower "Cairo") = true ∨
        strIn (pyLower "") (pyLower "Egypt") = true)) :=
  ⟨by decide,
    (C8_location_suggestions "cai" "" [("Giza", "Egypt", 12), ("Cairo", "Egypt", 30)]).1
      ("Cairo", "Egypt", 30) (by decide)⟩

/-! ## `select_with_hotel` lemmas -/

/-- The fill loop only ever appends: its result is the initial selection
followed by elements drawn from the pool. -/
theorem fillLoop_append (ps : ℕ) :
    ∀ (pool selected : List SCand) (seen : List Int) (types : List String),
      ∃ added, fillLoop ps pool selected seen types = selected ++ added ∧
        ∀ x ∈ added, x ∈ pool := by
  intro pool
  induction pool with
  | nil =>
      intro s seen types
      exact ⟨[], by simp [fillLoop]⟩
  | cons c pool ih =>
      intro s seen types
      by_cases h1 : ps ≤ s.length
      · exact ⟨[], by simp [fillLoop, h1]⟩
      · by_cases h2 : c.poi_id ∈ seen
        · obtain ⟨added, heq, hsub⟩ := ih s seen types
          exact ⟨added, by simp [fillLoop, h1, h2, heq],
            fun x hx => List.mem_cons_of_mem c (hsub x hx)⟩
        · by_cases h3 : c.type ∉ types
          · obtain ⟨added, heq, hsub⟩ := ih (s ++ [c]) (c.poi_id :: seen) (c.type :: types)
            refine ⟨c :: added, ?_, ?_⟩
            · simp [fillLoop, h1, h2, h3, heq]
            · intro x hx
              rcases List.mem_cons.mp hx with hxc | hx'
              · rw [hxc]; exact List.mem_cons_self c pool
              · exact List.mem_cons_of_mem c (hsub x hx')
          · by_cases h4 : s.countP (fun x => x.type == c.type) < 2
            · obtain ⟨added, heq, hsub⟩ := ih (s ++ [c]) (c.poi_id :: seen) types
              refine ⟨c :: added, ?_, ?_⟩
              · simp [fillLoop, h1, h2, h3, h4, heq]
              · intro x hx
                rcases List.mem_cons.mp hx with hxc | hx'
                · rw [hxc]; exact List.mem_cons_self c pool
                · exact List.mem_cons_of_mem c (hsub x hx')
            · obtain ⟨added, heq, hsub⟩ := ih s seen types
              exact ⟨added, by simp [fillLoop, h1, h2, h3, h4, heq],
                fun x hx => List.mem_cons_of_mem c (hsub x hx)⟩

/-- The fill loop keeps `poi_id`s pairwise distinct: it only adds a
candidate whose id is not in `seen`, and `seen` covers every selected
item's id. -/
theorem fillLoop_nodup (ps : ℕ) :
    ∀ (pool selected : List SCand) (seen : List Int) (types : List String),
      (selected.map (fun s => s.poi_id)).Nodup →
      (∀ s ∈ selected, s.poi_id ∈ seen) →
      ((fillLoop ps pool selected seen types).map (fun s => s.poi_id)).Nodup := by
  intro pool
  induction pool with
  | nil => intro s seen types h1 _; simpa [fillLoop] using h1
  | cons c pool ih =>
      intro s seen types hnd hcov
      by_cases h1 : ps ≤ s.length
      · simpa [fillLoop, h1] using hnd
      · by_cases h2 : c.poi_id ∈ seen
        · simp only [fillLoop, h1, if_false, h2, if_true]
          exact ih s seen types hnd hcov
        · have hnotin : c.poi_id ∉ s.map (fun s => s.poi_id) := by
            intro hmem
            obtain ⟨y, hy, hyid⟩ := List.mem_map.mp hmem
            exact h2 (hyid ▸ hcov y hy)
          have hnd' : ((s ++ [c]).map (fun s => s.poi_id)).Nodup := by
            rw [List.map_append]
            exact List.Nodup.append hnd (by simp)
              (by simpa [List.disjoint_singleton] using hnotin)
          have hcov' : ∀ x ∈ s ++ [c], x.poi_id ∈ c.poi_id :: seen := by
            intro x hx
            rcases List.mem_append.mp hx with hx' | hx'
            · exact List.mem_cons_of_mem _ (hcov x hx')
            · rcases List.mem_singleton.mp hx' with rfl
              exact List.mem_cons_self _ _
          by_cases h3 : c.type ∉ types
          · simp only [fillLoop, h1, if_false, h2, h3, if_true]
            exact ih (s ++ [c]) (c.poi_id :: seen) (c.type :: types) hnd' hcov'
          · by_cases h4 : s.countP (fun x => x.type == c.type) < 2
            · simp only [fillLoop, h1, if_false, h2, h3, h4, if_true]
              exact ih (s ++ [c]) (c.poi_id :: seen) types hnd' hcov'
            · simp only [fillLoop, h1, if_false, h2, h3, h4, if_true]
              exact ih s seen types hnd hcov

theorem countP_take_of_cons_zero (p : SCand → Bool) (x : SCand) (l : List SCand)
    (n : ℕ) (hx : p x = true) (hl : l.countP p = 0) (hn : 1 ≤ n) :
    ((x :: l).take n).countP p = 1 := by
  obtain ⟨m, rfl⟩ : ∃ m, n = m + 1 := ⟨n - 1, by omega⟩
  rw [List.take_succ_cons, List.countP_cons_of_pos _ _ hx]
  have hle := (List.take_sublist m l).countP_le p
  omega

/-- After single-hotel enforcement and truncation to `ps ≥ 1` slots, a
list that starts with a hotel and has any further hotels only later
contains exactly one hotel. -/
theorem anchor_take_count (ps : ℕ) (hps : 1 ≤ ps) (h : SCand) (t : List SCand)
    (hh : h.type = "hotel") :
    ((enforceSingleHotel ps (h :: t)).take ps).countP (fun s => s.type == "hotel") = 1 := by
  have hph : (fun s : SCand => s.type == "hotel") h = true := by simp [hh]
  unfold enforceSingleHotel
  have hfil : (h :: t).filter (fun s => s.type == "hotel")
      = h :: t.filter (fun s => s.type == "hotel") := by
    simp [List.filter_cons, hph]
  rw [hfil]
  by_cases hgt : 1 < (h :: t.filter (fun s => s.type == "hotel")).length
  · rw [if_pos hgt]
    simp only [List.head?_cons]
    have hneg : (h :: t).filter (fun s => !(s.type == "hotel"))
        = t.filter (fun s => !(s.type == "hotel")) := by
      simp [List.filter_cons, hph]
    rw [hneg]
    have hzero : ((t.filter (fun s => !(s.type == "hotel"))).take (ps - 1)).countP
        (fun s => s.type == "hotel") = 0 := by
      have h1 : (t.filter (fun s => !(s.type == "hotel"))).countP
          (fun s => s.type == "hotel") = 0 := by
        rw [List.countP_filter]
        simp
      have h2 := (List.take_sublist (ps - 1)
        (t.filter (fun s => !(s.type == "hotel")))).countP_le
        (fun s => s.type == "hotel")
      omega
    exact countP_take_of_cons_zero _ _ _ _ hph hzero hps
  · rw [if_neg hgt]
    have hcount : (h :: t).countP (fun s => s.type == "hotel") ≤ 1 := by
      rw [List.countP_eq_length_filter, hfil]
      omega
    rw [List.countP_cons_of_pos (fun s : SCand => s.type == "hotel") t hph] at hcount
    exact countP_take_of_cons_zero _ _ _ _ hph (by omega) hps

/-- Same setting: the hotel seeded at position 0 stays at position 0. -/
theorem anchor_take_head (ps : ℕ) (hps : 1 ≤ ps) (h : SCand) (t : List SCand)
    (hh : h.type = "hotel") :
    ((enforceSingleHotel ps (h :: t)).take ps).head? = some h := by
  have hph : (fun s : SCand => s.type == "hotel") h = true := by simp [hh]
  obtain ⟨m, hm⟩ : ∃ m, ps = m + 1 := ⟨ps - 1, by omega⟩
  unfold enforceSingleHotel
  have hfil : (h :: t).filter (fun s => s.type == "hotel")
      = h :: t.filter (fun s => s.type == "hotel") := by
    simp [List.filter_cons, hph]
  rw [hfil]
  by_cases hgt : 1 < (h :: t.filter (fun s => s.type == "hotel")).length
  · rw [if_pos hgt]
    simp only [List.head?_cons]
    rw [hm, List.take_succ_cons, List.head?_cons]
  · rw [if_neg hgt, hm, List.take_succ_cons, List.head?_cons]

/-- Structure of the fill phase: either the best-scoring hotel seeds the
selection at position 0 (and everything else comes from the pool), or the
pool holds no hotel at all and the selection is drawn purely from it. -/
theorem afterFill_cases (candidates : List SCand) (ps : ℕ) (theme : Option String) :
    (∃ hp added, afterFill candidates ps theme = hp :: added ∧ hp ∈ candidates ∧
        hp.type = "hotel" ∧ ∀ x ∈ added, x ∈ candidates) ∨
    ((∀ c ∈ candidates, c.type ≠ "hotel") ∧
      ∃ added, afterFill candidates ps theme = added ∧ ∀ x ∈ added, x ∈ candidates) := by
  unfold afterFill
  cases hh : (hotelsSorted candidates).head? with
  | none =>
      right
      have hnil : hotelsSorted candidates = [] := List.head?_eq_none_iff.mp hh
      have hfil : candidates.filter (fun c => c.type == "hotel") = [] := by
        have hperm := sortStableBy_perm (fun b a : SCand => decide (a.score ≤ b.score))
          (candidates.filter (fun c => c.type == "hotel"))
        rw [show sortStableBy (fun b a : SCand => decide (a.score ≤ b.score))
          (candidates.filter (fun c => c.type == "hotel")) = hotelsSorted candidates from rfl,
          hnil] at hperm
        exact hperm.symm.eq_nil
      refine ⟨?_, ?_⟩
      · intro c hc hct
        have hmem : c ∈ candidates.filter (fun c => c.type == "hotel") :=
          List.mem_filter.mpr ⟨hc, by simp [hct]⟩
        rw [hfil] at hmem
        cases hmem
      · obtain ⟨added, heq, hsub⟩ := fillLoop_append ps
          (poolSorted theme (candidates.filter (fun c => decide (c.poi_id ∉ ([] : List Int)))))
          [] [] []
        refine ⟨added, by simpa using heq, ?_⟩
        intro x hx
        have hx1 := hsub x hx
        unfold poolSorted at hx1
        rw [sortStableBy_mem] at hx1
        exact List.mem_of_mem_filter hx1
  | some hp =>
      left
      have hpmem : hp ∈ hotelsSorted candidates := by
        cases hl : hotelsSorted candidates with
        | nil => rw [hl] at hh; cases hh
        | cons a l =>
            rw [hl] at hh
            simp only [List.head?_cons, Option.some.injEq] at hh
            rw [← hh]
            exact List.mem_cons_self a l
      unfold hotelsSorted at hpmem
      rw [sortStableBy_mem] at hpmem
      have hpc : hp ∈ candidates := List.mem_of_mem_filter hpmem
      have hph : hp.type = "hotel" := by
        have := List.of_mem_filter hpmem
        simpa using this
      obtain ⟨added, heq, hsub⟩ := fillLoop_append ps
        (poolSorted theme (candidates.filter (fun c => decide (c.poi_id ∉ [hp.poi_id]))))
        [hp] [hp.poi_id] ["hotel"]
      refine ⟨hp, added, by simpa using heq, hpc, hph, ?_⟩
      intro x hx
      have hx1 := hsub x hx
      unfold poolSorted at hx1
      rw [sortStableBy_mem] at hx1
      exact List.mem_of_mem_filter hx1

/-- The fill phase produces pairwise-distinct `poi_id`s. -/
theorem afterFill_nodup (candidates : List SCand) (ps : ℕ) (theme : Option String) :
    ((afterFill candidates ps theme).map (fun s => s.poi_id)).Nodup := by
  unfold afterFill
  cases hh : (hotelsSorted candidates).head? with
  | none =>
      exact fillLoop_nodup ps _ [] [] [] (by simp) (by simp)
  | some hp =>
      exact fillLoop_nodup ps _ [hp] [hp.poi_id] ["hotel"] (by simp)
        (by intro s hs; rw [List.mem_singleton.mp hs]; exact List.mem_cons_self _ _)

/-- The anchor fallback preserves distinct ids when no real candidate
carries the synthetic id −1. -/
theorem withAnchor_nodup (l : List SCand)
    (hnd : (l.map (fun s => s.poi_id)).Nodup)
    (hno : ∀ x ∈ l, x.poi_id ≠ -1) :
    ((withAnchor l).map (fun s => s.poi_id)).Nodup := by
  unfold withAnchor
  by_cases h : l.any (fun s => s.type == "hotel")
  · simpa [h] using hnd
  · simp only [h, if_false, Bool.false_eq_true, List.map_cons]
    refine List.Nodup.cons ?_ hnd
    intro hmem
    obtain ⟨y, hy, hyid⟩ := List.mem_map.mp hmem
    exact hno y hy hyid

/-- Single-hotel enforcement preserves distinct ids. -/
theorem enforceSingleHotel_nodup (ps : ℕ) (l : List SCand)
    (hl : (l.map (fun s => s.poi_id)).Nodup) :
    ((enforceSingleHotel ps l).map (fun s => s.poi_id)).Nodup := by
  unfold enforceSingleHotel
  by_cases hgt : 1 < (l.filter (fun s => s.type == "hotel")).length
  · rw [if_pos hgt]
    cases hfh : (l.filter (fun s => s.type == "hotel")).head? with
    | none => exact hl
    | some fh =>
        simp only [List.map_cons]
        have hfh_filter : fh ∈ l.filter (fun s => s.type == "hotel") := by
          cases hfl : l.filter (fun s => s.type == "hotel") with
          | nil => rw [hfl] at hfh; cases hfh
          | cons a r =>
              rw [hfl] at hfh
              simp only [List.head?_cons, Option.some.injEq] at hfh
              rw [← hfh]
              exact List.mem_cons_self a r
        have hfh_mem : fh ∈ l := List.mem_of_mem_filter hfh_filter
        have hfh_p : (fh.type == "hotel") = true := by
          simpa using List.of_mem_filter hfh_filter
        have hsub : List.Sublist
            (((l.filter (fun s => !(s.type == "hotel"))).take (ps - 1)).map
              (fun s => s.poi_id))
            (l.map (fun s => s.poi_id)) :=
          ((List.take_sublist _ _).trans (List.filter_sublist l)).map _
        refine List.Nodup.cons ?_ (hl.sublist hsub)
        intro hmem
        obtain ⟨y, hy, hyid⟩ := List.mem_map.mp hmem
        have hy_filter := (List.take_sublist (ps - 1) _).subset hy
        have hy_mem : y ∈ l := List.mem_of_mem_filter hy_filter
        have hy_p : (!(y.type == "hotel")) = true := by
          simpa using List.of_mem_filter hy_filter
        have hyx : y = fh :=
          List.inj_on_of_nodup_map hl hy_mem hfh_mem hyid
        rw [hyx, hfh_p] at hy_p
        cases hy_p
  · rw [if_neg hgt]
    exact hl

/-! ## Claim C2 -/

/-- **C2, confirmed.**  For every non-empty candidate pool and every plan
size, `select_with_hotel` returns a list containing exactly one item of
the anchor category `"hotel"`; and when the pool contains no hotel-typed
candidate, the synthetic placeholder (`poi_id = -1`,
name `"Hotel check-in / rest"`, score 0.0 — `dummyHotel`) is inserted at
position 0 and is the returned list's first element. -/
theorem C2_exactly_one_hotel (candidates : List SCand) (plan_size : ℤ)
    (theme : Option String) (_hne : candidates ≠ []) :
    ((select_with_hotel candidates plan_size theme).countP
      (fun s => s.type == "hotel") = 1) ∧
    ((∀ c ∈ candidates, c.type ≠ "hotel") →
      (select_with_hotel candidates plan_size theme).head? = some dummyHotel) := by
  have hps1 : 1 ≤ (if plan_size < 2 then 2 else plan_size).toNat := by
    by_cases hlt : plan_size < 2
    · simp [hlt]
    · simp only [hlt, if_false]
      omega
  set ps := (if plan_size < 2 then 2 else plan_size).toNat with hps
  have hsel : select_with_hotel candidates plan_size theme
      = (enforceSingleHotel ps (withAnchor (afterFill candidates ps theme))).take ps := rfl
  rw [hsel]
  rcases afterFill_cases candidates ps theme with
    ⟨hp, added, heq, hpc, hph, _⟩ | ⟨hnb, added, heq, hsub⟩
  · have hany : (afterFill candidates ps theme).any (fun s => s.type == "hotel") = true := by
      rw [heq]
      simp [hph]
    have hw : withAnchor (afterFill candidates ps theme) = hp :: added := by
      unfold withAnchor
      rw [hany, if_pos rfl, heq]
    rw [hw]
    exact ⟨anchor_take_count ps hps1 hp added hph,
      fun hnone => absurd hph (hnone hp hpc)⟩
  · have hanyf : (afterFill candidates ps theme).any (fun s => s.type == "hotel") = false := by
      rw [heq, List.any_eq_false]
      intro x hx
      simp [hnb x (hsub x hx)]
    have hw : withAnchor (afterFill candidates ps theme) = dummyHotel :: added := by
      unfold withAnchor
      rw [hanyf, heq]
      simp
    rw [hw]
    exact ⟨anchor_take_count ps hps1 dummyHotel added rfl,
      fun _ => anchor_take_head ps hps1 dummyHotel added rfl⟩

/-- Witness for C2 on the hotel-free pool `wCandsNoHotel`. -/
theorem C2_witness :
    wCandsNoHotel ≠ [] ∧
    ((select_with_hotel wCandsNoHotel 6 none).countP
        (fun s => s.type == "hotel") = 1 ∧
      ((∀ c ∈ wCandsNoHotel, c.type ≠ "hotel") →
        (select_with_hotel wCandsNoHotel 6 none).head? = some dummyHotel)) :=
  ⟨by decide, C2_exactly_one_hotel wCandsNoHotel 6 none (by decide)⟩

/-! ## Claim C10 -/

/-- **C10, confirmed.**  When no input candidate carries the synthetic id
−1, the list returned by `select_with_hotel` has pairwise-distinct
`poi_id`s — duplicates in the input (same id) are filtered by the
`seen_ids` set, and every stage preserves distinctness. -/
theorem C10_distinct_ids (candidates : List SCand) (plan_size : ℤ)
    (theme : Option String) (hids : ∀ c ∈ candidates, c.poi_id ≠ -1) :
    ((select_with_hotel candidates plan_size theme).map
      (fun s => s.poi_id)).Nodup := by
  set ps := (if plan_size < 2 then 2 else plan_size).toNat with hps
  have hsel : select_with_hotel candidates plan_size theme
      = (enforceSingleHotel ps (withAnchor (afterFill candidates ps theme))).take ps := rfl
  rw [hsel]
  have hafter : ((afterFill candidates ps theme).map (fun s => s.poi_id)).Nodup :=
    afterFill_nodup candidates ps theme
  have hmem : ∀ x ∈ afterFill candidates ps theme, x ∈ candidates := by
    rcases afterFill_cases candidates ps theme with
      ⟨hp, added, heq, hpc, _, hsub⟩ | ⟨_, added, heq, hsub⟩
    · intro x hx
      rw [heq] at hx
      rcases List.mem_cons.mp hx with hxc | hx'
      · rw [hxc]; exact hpc
      · exact hsub x hx'
    · intro x hx
      rw [heq] at hx
      exact hsub x hx
  have hanchor : ((withAnchor (afterFill candidates ps theme)).map
      (fun s => s.poi_id)).Nodup :=
    withAnchor_nodup _ hafter (fun x hx => hids x (hmem x hx))
  have henf : ((enforceSingleHotel ps (withAnchor (afterFill candidates ps theme))).map
      (fun s => s.poi_id)).Nodup :=
    enforceSingleHotel_nodup ps _ hanchor
  exact henf.sublist ((List.take_sublist ps _).map _)

/-- Witness for C10 on a pool with one hotel and a duplicated entry. -/
theorem C10_witness :
    (∀ c ∈ wCandsDup, c.poi_id ≠ -1) ∧
    ((select_with_hotel wCandsDup 6 none).map (fun s => s.poi_id)).Nodup :=
  ⟨by decide, C10_distinct_ids wCandsDup 6 none (by decide)⟩

/-! ## Time-tiling lemmas -/

theorem slotsGo_succ (e step cur k : ℕ) :
    slotsGo e step cur (k + 1) =
      (cur, if k = 0 ∨ e < cur + step then e else cur + step) ::
        (if e ≤ (if k = 0 ∨ e < cur + step then e else cur + step) then []
         else slotsGo e step (if k = 0 ∨ e < cur + step then e else cur + step) k) := rfl

/-- Walk invariants: starting on a half-hour boundary strictly before the
(half-hour aligned) day end, with a positive step that is a multiple of
30, every produced slot is half-hour aligned, non-negative in width and
bounded by the day end, slots are contiguous, the first slot starts at
`cur`, the last slot ends at the day end, and at most `k` slots are
produced. -/
theorem slotsGo_spec (e step : ℕ) (he : e % 30 = 0) (hstep : step % 30 = 0)
    (hpos : 0 < step) :
    ∀ (k cur : ℕ), cur % 30 = 0 → cur < e → 0 < k →
      (∀ p ∈ slotsGo e step cur k,
        p.1 % 30 = 0 ∧ p.2 % 30 = 0 ∧ p.1 ≤ p.2 ∧ p.2 ≤ e) ∧
      List.Chain' (fun p q : ℕ × ℕ => p.2 = q.1) (slotsGo e step cur k) ∧
      (slotsGo e step cur k).head?.map Prod.fst = some cur ∧
      (slotsGo e step cur k).getLast?.map Prod.snd = some e ∧
      (slotsGo e step cur k).length ≤ k := by
  intro k
  induction k with
  | zero => intro cur _ _ h0; omega
  | succ k ih =>
      intro cur hc30 hce _
      by_cases hA : k = 0 ∨ e < cur + step
      · have hlist : slotsGo e step cur (k + 1) = [(cur, e)] := by
          rw [slotsGo_succ, if_pos hA, if_pos (le_refl e)]
        rw [hlist]
        refine ⟨?_, by simp, by simp, by simp, by simp⟩
        intro p hp
        rw [List.mem_singleton.mp hp]
        exact ⟨hc30, he, le_of_lt hce, le_refl e⟩
      · push_neg at hA
        obtain ⟨hk0, hstepin⟩ := hA
        have hA' : ¬(k = 0 ∨ e < cur + step) := by
          push_neg
          exact ⟨hk0, hstepin⟩
        by_cases hB : e ≤ cur + step
        · have hcse : cur + step = e := le_antisymm hstepin hB
          have hlist : slotsGo e step cur (k + 1) = [(cur, cur + step)] := by
            rw [slotsGo_succ, if_neg hA', if_pos hB]
          rw [hlist]
          refine ⟨?_, by simp, by simp, ?_, by simp⟩
          · intro p hp
            rw [List.mem_singleton.mp hp]
            exact ⟨hc30, by omega, by omega, hstepin⟩
          · simp [hcse]
        · push_neg at hB
          have hlist : slotsGo e step cur (k + 1)
              = (cur, cur + step) :: slotsGo e step (cur + step) k := by
            rw [slotsGo_succ, if_neg hA', if_neg (by omega)]
          obtain ⟨ihmem, ihchain, ihhead, ihlast, ihlen⟩ :=
            ih (cur + step) (by omega) hB (by omega)
          rw [hlist]
          refine ⟨?_, ?_, by simp, ?_, ?_⟩
          · intro p hp
            rcases List.mem_cons.mp hp with hp1 | hp2
            · rw [hp1]
              exact ⟨hc30, by omega, by omega, le_of_lt hB⟩
            · exact ihmem p hp2
          · refine List.chain'_cons'.mpr ⟨?_, ihchain⟩
            intro b hb
            have hb2 : (slotsGo e step (cur + step) k).head? = some b :=
              Option.mem_def.mp hb
            rw [hb2] at ihhead
            have hb1 : b.1 = cur + step := by simpa using ihhead
            exact hb1.symm
          · cases hrest : slotsGo e step (cur + step) k with
            | nil => rw [hrest] at ihhead; cases ihhead
            | cons r0 rt =>
                rw [List.getLast?_cons_cons]
                rw [hrest] at ihlast
                exact ihlast
          · simp only [List.length_cons]
            omega

theorem chain'_replicate_end (m e : ℕ) :
    List.Chain' (fun p q : ℕ × ℕ => p.2 = q.1) (List.replicate m (e, e)) := by
  induction m with
  | zero => simp
  | succ m ih =>
      rw [List.replicate_succ]
      refine List.chain'_cons'.mpr ⟨?_, ih⟩
      intro b hb
      have hmem : b ∈ List.replicate m (e, e) :=
        List.mem_of_mem_head? hb
      rw [List.eq_of_mem_replicate hmem]

theorem getLast?_replicate_pos (m : ℕ) (hm : 0 < m) (x : ℕ × ℕ) :
    (List.replicate m x).getLast? = some x := by
  induction m with
  | zero => omega
  | succ m ih =>
      rw [List.replicate_succ]
      cases hm2 : m with
      | zero => simp
      | succ m2 =>
          rw [List.replicate_succ, List.getLast?_cons_cons, ← List.replicate_succ, ← hm2]
          exact ih (by omega)

theorem snap_down_mod (m : ℕ) : snap_down m % 30 = 0 := by
  unfold snap_down
  by_cases h : m % 60 < 30 <;> simp [h] <;> omega

theorem snap_up_mod (m : ℕ) : snap_up m % 30 = 0 := by
  unfold snap_up
  by_cases h1 : m % 60 = 0
  · simp [h1]; omega
  · by_cases h2 : m % 60 ≤ 30 <;> simp [h1, h2] <;> omega

/-- Correctness of the numeric time tiling for a positive slot count and a
non-degenerate snapped day window: exactly `n` slots, all half-hour
aligned with non-negative widths bounded by the day end, contiguous,
starting at the snapped start, and ending exactly at the snapped end. -/
theorem timeSlotsM_spec (s0 e0 : ℕ) (n : ℤ) (hn : 0 < n)
    (hlt : snap_down s0 < snap_up e0) :
    (timeSlotsM s0 e0 n).length = n.toNat ∧
    (∀ p ∈ timeSlotsM s0 e0 n,
      p.1 % 30 = 0 ∧ p.2 % 30 = 0 ∧ p.1 ≤ p.2 ∧ p.2 ≤ snap_up e0) ∧
    List.Chain' (fun p q : ℕ × ℕ => p.2 = q.1) (timeSlotsM s0 e0 n) ∧
    (timeSlotsM s0 e0 n).head?.map Prod.fst = some (snap_down s0) ∧
    (timeSlotsM s0 e0 n).getLast?.map Prod.snd = some (snap_up e0) := by
  have hcond : ¬(n ≤ 0 ∨ snap_up e0 - snap_down s0 = 0) := by
    push_neg
    exact ⟨by omega, by omega⟩
  have hnn : 0 < n.toNat := by omega
  set s := snap_down s0 with hs
  set e := snap_up e0 with he
  set total := e - s with htotal
  set nn := n.toNat with hnn'
  set raw_step := (total + nn - 1) / nn with hraw
  set step := max 30 ((raw_step + 29) / 30 * 30) with hstep
  have hstep30 : step % 30 = 0 := by
    rw [hstep]
    rcases Nat.le_total 30 ((raw_step + 29) / 30 * 30) with h | h
    · rw [Nat.max_eq_right h]
      exact Nat.mul_mod_left _ _
    · rw [Nat.max_eq_left h]
  have hsteppos : 0 < step := by
    have := le_max_left 30 ((raw_step + 29) / 30 * 30)
    omega
  have hunfold : timeSlotsM s0 e0 n
      = ((slotsGo e step s nn) ++
          List.replicate (nn - (slotsGo e step s nn).length) (e, e)).take nn := by
    unfold timeSlotsM
    rw [if_neg hcond]
  obtain ⟨hmem, hchain, hhead, hlast, hlen⟩ :=
    slotsGo_spec e step (by rw [he]; exact snap_up_mod e0) hstep30 hsteppos
      nn s (by rw [hs]; exact snap_down_mod s0) hlt hnn
  set slots := slotsGo e step s nn with hslots
  have hplen : (slots ++ List.replicate (nn - slots.length) (e, e)).length = nn := by
    simp [List.length_append, List.length_replicate]
    omega
  have htake : ((slots ++ List.replicate (nn - slots.length) (e, e)).take nn)
      = slots ++ List.replicate (nn - slots.length) (e, e) :=
    List.take_of_length_le (le_of_eq hplen)
  rw [hunfold, htake]
  have hslots_ne : slots ≠ [] := by
    intro hnil
    rw [hnil] at hhead
    cases hhead
  refine ⟨by rw [hplen], ?_, ?_, ?_, ?_⟩
  · intro p hp
    rcases List.mem_append.mp hp with hp1 | hp2
    · exact hmem p hp1
    · rw [List.eq_of_mem_replicate hp2]
      exact ⟨snap_up_mod e0, snap_up_mod e0, le_refl _, le_refl _⟩
  · refine List.Chain'.append hchain (chain'_replicate_end _ _) ?_
    intro x hx y hy
    have hx2 : x.2 = e := by
      have hx' : slots.getLast?.map Prod.snd = some x.2 := by
        rw [Option.mem_def.mp hx]
        rfl
      rw [hlast] at hx'
      simpa using hx'.symm
    have hy1 : y = (e, e) :=
      List.eq_of_mem_replicate (List.mem_of_mem_head? hy)
    rw [hx2, hy1]
  · cases hsl : slots with
    | nil => exact absurd hsl hslots_ne
    | cons a t =>
        rw [hsl] at hhead
        simpa using hhead
  · by_cases hpad : nn - slots.length = 0
    · rw [hpad]
      simpa using hlast
    · rw [List.getLast?_append_of_ne_nil slots
        (by
          intro hnil
          have hlr := congrArg List.length hnil
          simp only [List.length_replicate, List.length_nil] at hlr
          omega)]
      rw [getLast?_replicate_pos _ (by omega) _]
      rfl

/-! ## Claim C6 -/

/-- **C6, confirmed.**  `build_time_slots` snaps the start down and the
end up to half-hour boundaries, steps by
`max(30, ceil(ceil(total/n)/30)·30)` minutes, clamps the final slot to the
day end and pads with zero-width slots (these are the definitions
`snap_down`, `snap_up`, `timeSlotsM`); in particular
`build_time_slots("09:00", "22:00", 6)` returns exactly the six contiguous
slots below, all on `:00`/`:30` boundaries with final end `"22:00"`, and
in general (for `0 < n` slots over a non-degenerate snapped window) the
tiling has exactly `n` slots, all half-hour aligned, non-decreasing and
contiguous, starting at the snapped start and ending at the snapped end. -/
theorem C6_time_tiling :
    (build_time_slots "09:00" "22:00" 6 =
      some [("09:00","11:30"),("11:30","14:00"),("14:00","16:30"),
            ("16:30","19:00"),("19:00","21:30"),("21:30","22:00")]) ∧
    (∀ (s0 e0 : ℕ) (n : ℤ), 0 < n → snap_down s0 < snap_up e0 →
      (timeSlotsM s0 e0 n).length = n.toNat ∧
      (∀ p ∈ timeSlotsM s0 e0 n,
        p.1 % 30 = 0 ∧ p.2 % 30 = 0 ∧ p.1 ≤ p.2 ∧ p.2 ≤ snap_up e0) ∧
      List.Chain' (fun p q : ℕ × ℕ => p.2 = q.1) (timeSlotsM s0 e0 n) ∧
      (timeSlotsM s0 e0 n).head?.map Prod.fst = some (snap_down s0) ∧
      (timeSlotsM s0 e0 n).getLast?.map Prod.snd = some (snap_up e0)) :=
  ⟨by decide, fun s0 e0 n hn hlt => timeSlotsM_spec s0 e0 n hn hlt⟩

/-- Witness for C6's general part at the 09:00–22:00 window with 6 slots. -/
theorem C6_witness :
    (0 : ℤ) < 6 ∧ snap_down 540 < snap_up 1320 ∧
    ((timeSlotsM 540 1320 6).length = (6 : ℤ).toNat ∧
      (∀ p ∈ timeSlotsM 540 1320 6,
        p.1 % 30 = 0 ∧ p.2 % 30 = 0 ∧ p.1 ≤ p.2 ∧ p.2 ≤ snap_up 1320) ∧
      List.Chain' (fun p q : ℕ × ℕ => p.2 = q.1) (timeSlotsM 540 1320 6) ∧
      (timeSlotsM 540 1320 6).head?.map Prod.fst = some (snap_down 540) ∧
      (timeSlotsM 540 1320 6).getLast?.map Prod.snd = some (snap_up 1320)) :=
  ⟨by decide, by decide, C6_time_tiling.2 540 1320 6 (by decide) (by decide)⟩

end TourPlan
